import Mathlib

/-!
Shallow embedding of the go-fhir-client request/response pipeline:
the response classifier (`checkForOperationOutcomeError`), the resource
descriptor (`DescribeResource`), the request executor (`doRequest`), the
query-parameter option (`QueryParam`) and the pagination driver (`Paginate`).
External collaborators (the HTTP transport, JSON marshalling, URL parsing)
are passed in as function parameters, mirroring how the Go code delegates
to `net/http`, `encoding/json` and `net/url`.
-/

namespace FhirClient

/-- Byte strings (Go `[]byte`) are modelled as lists of bytes. -/
abbrev Data := List Nat

/-- Model of Go `strings.EqualFold`, restricted to simple case folding. -/
def eqFold (s t : String) : Bool := s.toLower == t.toLower

/-- Severity of an operation-outcome issue (`fhir.IssueSeverity`). -/
inductive IssueSeverity where
  | fatal
  | error
  | warning
  | information
deriving DecidableEq

/-- One issue of an operation outcome; only the fields the embedded
functions consult (`Severity`, `Diagnostics`) are modelled. -/
structure OperationOutcomeIssue where
  severity : IssueSeverity
  diagnostics : Option String := none
deriving DecidableEq

/-- The `OperationOutcomeError` struct: an embedded outcome with the raw
`resourceType` tag and the HTTP status code attached when it fires. -/
structure OperationOutcomeError where
  resourceType : Option String
  issue : List OperationOutcomeIssue
  httpStatusCode : Int := 0
deriving DecidableEq

/-- Method `IsOperationOutcome`: the `resourceType` tag is present and
case-insensitively equals the operation-outcome type name. -/
def OperationOutcomeError.IsOperationOutcome (r : OperationOutcomeError) : Bool :=
  match r.resourceType with
  | none => false
  | some rt => eqFold rt "OperationOutcome"

/-- Method `ContainsError`: some issue has severity fatal or error. -/
def OperationOutcomeError.ContainsError (r : OperationOutcomeError) : Bool :=
  r.issue.any fun i => i.severity == .fatal || i.severity == .error

/-- The response classifier `checkForOperationOutcomeError`.  The JSON
decoding collaborator `unmarshalOOC` returns `none` on a parse failure
(which the classifier swallows) and the decoded struct otherwise. -/
def checkForOperationOutcomeError (unmarshalOOC : Data → Option OperationOutcomeError)
    (data : Data) (errorEvenWithoutIssue : Bool) (httpStatusCode : Int) :
    Option OperationOutcomeError :=
  if data.length = 0 then
    none
  else
    match unmarshalOOC data with
    | none => none
    | some ooc =>
      if ooc.IsOperationOutcome then
        if errorEvenWithoutIssue || ooc.ContainsError then
          some { ooc with httpStatusCode := httpStatusCode }
        else none
      else none

/-- A resource value handed to `DescribeResource`: either a raw byte slice
(used verbatim) or an arbitrary Go value together with the outcome of
`json.Marshal` on it and its runtime type name (Go `%T`). -/
inductive GoResource where
  | bytes (data : Data)
  | value (typeName : String) (marshal : Except String Data)

/-- Runtime type name of the resource as printed by `%T`. -/
def GoResource.runtimeTypeName : GoResource → String
  | .bytes _ => "[]uint8"
  | .value tn _ => tn

/-- The serialized JSON of the resource, when serialization succeeds;
for a byte slice this is the input verbatim. -/
def GoResource.serialized : GoResource → Option Data
  | .bytes d => some d
  | .value _ (.ok d) => some d
  | .value _ (.error _) => none

/-- Errors returned by `DescribeResource`; each carries the runtime type
name interpolated into the Go error message. -/
inductive DescribeError where
  | marshalFailure (typeName : String) (cause : String)
  | unmarshalFailure (typeName : String) (cause : String)
  | noTypeField (typeName : String)
deriving DecidableEq

/-- The `ResourceDescription` struct: declared type tag plus raw JSON. -/
structure ResourceDescription where
  type : String
  data : Data
deriving DecidableEq

/-- Shared tail of `DescribeResource` once the JSON bytes are in hand.
The collaborator `unmarshalDesc` models `json.Unmarshal` into
`ResourceDescription`: a parse failure, or the decoded `resourceType`
string (the Go zero value `""` when the field is absent). -/
def describeData (unmarshalDesc : Data → Except String String) (typeName : String)
    (data : Data) : Except DescribeError ResourceDescription :=
  match unmarshalDesc data with
  | .error e => .error (.unmarshalFailure typeName e)
  | .ok rt =>
    if rt = "" then .error (.noTypeField typeName)
    else .ok { type := rt, data := data }

/-- The resource descriptor `DescribeResource`. -/
def DescribeResource (unmarshalDesc : Data → Except String String)
    (resource : GoResource) : Except DescribeError ResourceDescription :=
  match resource with
  | .bytes d => describeData unmarshalDesc "[]uint8" d
  | .value tn (.error e) => .error (.marshalFailure tn e)
  | .value tn (.ok d) => describeData unmarshalDesc tn d

/-- The FHIR JSON media type constant. -/
def FhirJsonMediaType : String := "application/fhir+json"

/-- An outgoing HTTP request: method, URL (kept abstract as its string
form) and the header multimap as an ordered list of key/value pairs. -/
structure Request where
  method : String
  url : String
  headers : List (String × String)
deriving DecidableEq

/-- Go `Header.Add`: append a key/value pair to the header multimap. -/
def Request.addHeader (r : Request) (key value : String) : Request :=
  { r with headers := r.headers ++ [(key, value)] }

/-- Whether some header entry has the given key. -/
def Request.hasHeader (r : Request) (key : String) : Bool :=
  r.headers.any fun h => h.1 == key

/-- An incoming HTTP response: status code and the body stream, which
either delivers its full byte content or fails while being read. -/
structure Response where
  statusCode : Int
  body : Except String Data

/-- The option pipeline, as a closed sum over the three phases.  A
post-parse option only observes the decoded target, so only its error
outcome is retained. -/
inductive ExchangeOption where
  | pre (f : Request → Request)
  | post (f : Response → Option String)
  | postParse (err : Option String)

/-- Apply all pre-request options in caller order (lines 164-168). -/
def applyPreOptions (opts : List ExchangeOption) (r : Request) : Request :=
  opts.foldl (fun r o => match o with | .pre f => f r | _ => r) r

/-- The request handed to the transport: the default Accept header is
added first (line 162), then the pre-request options run; the rebuild of
the request (lines 170-175) preserves method, URL, body and headers. -/
def prepareRequest (req : Request) (opts : List ExchangeOption) : Request :=
  applyPreOptions opts (req.addHeader "Accept" FhirJsonMediaType)

/-- Run the post-request options in order; the first failure wins. -/
def runPostOptions : List ExchangeOption → Response → Option String
  | [], _ => none
  | .post f :: rest, resp =>
    match f resp with
    | some e => some e
    | none => runPostOptions rest resp
  | _ :: rest, resp => runPostOptions rest resp

/-- Run the post-parse options in order; the first failure wins. -/
def runPostParseOptions : List ExchangeOption → Option String
  | [] => none
  | .postParse (some e) :: _ => some e
  | _ :: rest => runPostParseOptions rest

/-- Client configuration: whether a non-2xx status handler is configured
(the handler itself is observational only) and the response size cap. -/
structure Config where
  non2xxStatusHandler : Bool
  maxResponseSize : Nat

/-- Errors produced by `doRequest`, one constructor per `return` site,
each carrying the values interpolated into the Go error message. -/
inductive DoRequestError where
  | transportFailure (method url : String) (cause : String)
  | postOptionFailed (cause : String)
  | bodyReadFailed (method url : String) (cause : String)
  | operationOutcome (ooc : OperationOutcomeError)
  | requestFailed (method url : String) (status : Int)
  | responseTooLarge (limit : Nat) (method url : String) (status : Int)
  | unmarshalFailed (method url : String) (status : Int) (cause : String)
  | postParseFailed (cause : String)
deriving DecidableEq

/-- Whether a `doRequest` outcome is the size-exceeded error. -/
def DoRequestError.isTooLarge : DoRequestError → Bool
  | .responseTooLarge _ _ _ _ => true
  | _ => false

/-- Observable trace of one `doRequest` execution: its result, the
request handed to the transport, whether the response body stream was
closed, whether the non-2xx handler ran, and how many bytes were read
from the body stream. -/
structure DoRequestTrace where
  result : Except DoRequestError Data
  sentRequest : Request
  bodyClosed : Bool
  handlerCalled : Bool
  bytesRead : Nat

/-- The request executor `doRequest` (part_003 lines 161-226).
Collaborators: `unmarshalOOC` decodes the body for the classifier,
`unmarshalTarget` models `json.Unmarshal` into the caller target
(returning a decode error or success), `transport` is `httpClient.Do`.
Note that the deferred `Body.Close` is registered only after the
post-request options have run (line 188), so the two earlier returns
leave the body open. -/
def doRequest (unmarshalOOC : Data → Option OperationOutcomeError)
    (unmarshalTarget : Data → Option String) (targetIsByteSlice : Bool)
    (cfg : Config) (transport : Request → Except String Response)
    (req : Request) (opts : List ExchangeOption) : DoRequestTrace :=
  let sent := prepareRequest req opts
  match transport sent with
  | .error e =>
    { result := .error (.transportFailure sent.method sent.url e), sentRequest := sent,
      bodyClosed := false, handlerCalled := false, bytesRead := 0 }
  | .ok resp =>
    match runPostOptions opts resp with
    | some e =>
      { result := .error (.postOptionFailed e), sentRequest := sent,
        bodyClosed := false, handlerCalled := false, bytesRead := 0 }
    | none =>
      match resp.body with
      | .error e =>
        { result := .error (.bodyReadFailed sent.method sent.url e), sentRequest := sent,
          bodyClosed := true, handlerCalled := false, bytesRead := 0 }
      | .ok bodyBytes =>
        let data := bodyBytes.take (cfg.maxResponseSize + 1)
        let finish := fun (res : Except DoRequestError Data) (handler : Bool) =>
          { result := res, sentRequest := sent, bodyClosed := true,
            handlerCalled := handler, bytesRead := data.length : DoRequestTrace }
        if resp.statusCode < 200 ∨ 300 ≤ resp.statusCode then
          match checkForOperationOutcomeError unmarshalOOC data true resp.statusCode with
          | some ooc => finish (.error (.operationOutcome ooc)) cfg.non2xxStatusHandler
          | none =>
            finish (.error (.requestFailed sent.method sent.url resp.statusCode))
              cfg.non2xxStatusHandler
        else if cfg.maxResponseSize < data.length then
          finish
            (.error (.responseTooLarge cfg.maxResponseSize sent.method sent.url resp.statusCode))
            false
        else
          match checkForOperationOutcomeError unmarshalOOC data false resp.statusCode with
          | some ooc => finish (.error (.operationOutcome ooc)) false
          | none =>
            if targetIsByteSlice then
              match runPostParseOptions opts with
              | some e => finish (.error (.postParseFailed e)) false
              | none => finish (.ok data) false
            else
              match unmarshalTarget data with
              | some e =>
                finish (.error (.unmarshalFailed sent.method sent.url resp.statusCode e)) false
              | none =>
                match runPostParseOptions opts with
                | some e => finish (.error (.postParseFailed e)) false
                | none => finish (.ok data) false

/-- Decoded query parameters, in the order they occur in the raw query
string (percent-escaping is left out; keys and values are opaque). -/
abbrev QueryPairs := List (String × String)

/-- Ordering of query pairs by key, as used by `url.Values.Encode`. -/
def queryKeyLE (a b : String × String) : Prop := a.1 ≤ b.1

instance : DecidableRel queryKeyLE :=
  fun a b => inferInstanceAs (Decidable (a.1 ≤ b.1))

instance : IsTotal (String × String) queryKeyLE :=
  ⟨fun a b => le_total a.1 b.1⟩

instance : IsTrans (String × String) queryKeyLE :=
  ⟨fun _ _ _ h h2 => le_trans h h2⟩

/-- Go `url.Values.Encode`: keys ascending, values of one key in their
insertion order — a stable sort of the pairs by key. -/
def encodeQuery (q : QueryPairs) : QueryPairs := List.insertionSort queryKeyLE q

/-- The encoded query rendered as a string (escaping left out). -/
def encodeQueryString (q : QueryPairs) : String :=
  String.intercalate "&" ((encodeQuery q).map fun p => p.1 ++ "=" ++ p.2)

/-- The `QueryParam` pre-request option, as its action on the decoded
query pairs of the request URL: parse the current raw query, `Add` the
new pair (append, never replace) and re-encode. -/
def QueryParam (key value : String) (q : QueryPairs) : QueryPairs :=
  encodeQuery (q ++ [(key, value)])

/-- Parsed URLs are kept abstract as their string form. -/
abbrev URL := String

/-- One entry of `Bundle.Link`. -/
structure BundleLink where
  relation : String
  url : String
deriving DecidableEq

/-- A FHIR `Bundle`; only the `Link` field is consulted by `Paginate`. -/
structure Bundle where
  link : List BundleLink
deriving DecidableEq

/-- Errors returned by `Paginate`, one constructor per `return` site. -/
inductive PaginateError where
  | consumeFailed (cause : String)
  | invalidNextLink (cause : String)
  | queryNextPageFailed (url : URL) (cause : String)
  | maxIterationsReached (n : Nat)
deriving DecidableEq

/-- The Go error message of each `Paginate` error (note the repository
misspells the next-page message as "pagintate"). -/
def PaginateError.message : PaginateError → String
  | .consumeFailed cause => cause
  | .invalidNextLink cause =>
    "paginate: invalid \x27next\x27 link for search set: " ++ cause
  | .queryNextPageFailed u cause =>
    "pagintate: query next page failed (url=" ++ u ++ "): " ++ cause
  | .maxIterationsReached n =>
    "paginate: max. search iterations reached (" ++ toString n ++ "), possible bug"

/-- The scan of the link collection (searching.go lines 52-61): every
link with relation "next" is parsed; a parse failure aborts, otherwise
the last parsed URL wins.  The accumulator is the `nextURL` variable,
`some` exactly when `hasNext` would be true. -/
def scanNextLink (parseURL : String → Except String URL) :
    List BundleLink → Option URL → Except String (Option URL)
  | [], nextURL => .ok nextURL
  | l :: rest, nextURL =>
    if l.relation = "next" then
      match parseURL l.url with
      | .error e => .error e
      | .ok u => scanNextLink parseURL rest (some u)
    else scanNextLink parseURL rest nextURL

/-- Observable trace of one `Paginate` run: how many times the consume
callback was invoked, which next-page URLs were fetched (in order), and
the final result. -/
structure PaginateTrace where
  consumeCalls : Nat
  fetched : List URL
  result : Except PaginateError Unit

/-- The loop of `Paginate` (searching.go lines 39-69), recursing on the
remaining iteration budget `maxIterations - i`.  The ceiling check fires
when the counter reaches `maxIterations - 1`, i.e. when one iteration of
budget remains. -/
def paginateLoop (parseURL : String → Except String URL)
    (search : URL → Except String Bundle)
    (consume : Bundle → Bool × Option String) (maxIterations : Nat) :
    Nat → Bundle → PaginateTrace
  | 0, _ => ⟨0, [], .ok ()⟩
  | remaining + 1, searchSet =>
    if remaining = 0 then
      ⟨0, [], .error (.maxIterationsReached maxIterations)⟩
    else
      match consume searchSet with
      | (_, some e) => ⟨1, [], .error (.consumeFailed e)⟩
      | (false, none) => ⟨1, [], .ok ()⟩
      | (true, none) =>
        match scanNextLink parseURL searchSet.link none with
        | .error e => ⟨1, [], .error (.invalidNextLink e)⟩
        | .ok none => ⟨1, [], .ok ()⟩
        | .ok (some u) =>
          match search u with
          | .error e => ⟨1, [u], .error (.queryNextPageFailed u e)⟩
          | .ok nextSet =>
            let t := paginateLoop parseURL search consume maxIterations remaining nextSet
            ⟨t.consumeCalls + 1, u :: t.fetched, t.result⟩

/-- The `paginationOptions` struct. -/
structure paginationOptions where
  maxIterations : Nat
deriving DecidableEq

/-- A `PaginationOption` mutates the options struct. -/
abbrev PaginationOption := paginationOptions → paginationOptions

/-- The `WithMaxIterations` option. -/
def WithMaxIterations (mx : Nat) : PaginationOption :=
  fun o => { o with maxIterations := mx }

/-- The pagination driver `Paginate`.  Collaborators: `parseURL` models
`url.Parse`, `search` models `fhirClient.SearchWithContext` at the given
URL, `consume` is the caller callback. -/
def Paginate (parseURL : String → Except String URL)
    (search : URL → Except String Bundle)
    (consume : Bundle → Bool × Option String)
    (searchSet : Bundle) (opts : List PaginationOption) : PaginateTrace :=
  let options := opts.foldl (fun o f => f o) ⟨100⟩
  paginateLoop parseURL search consume options.maxIterations options.maxIterations searchSet

/-- A bundle whose link scan succeeds and finds a next link. -/
def nextOK (parseURL : String → Except String URL) (b : Bundle) : Prop :=
  ∃ u, scanNextLink parseURL b.link none = .ok (some u)

theorem isOperationOutcome_iff (r : OperationOutcomeError) :
    r.IsOperationOutcome = true ↔
      ∃ rt, r.resourceType = some rt ∧ eqFold rt "OperationOutcome" = true := by
  unfold OperationOutcomeError.IsOperationOutcome
  cases h : r.resourceType <;> simp [h]

theorem containsError_iff (r : OperationOutcomeError) :
    r.ContainsError = true ↔
      ∃ i ∈ r.issue,
        i.severity = IssueSeverity.error ∨ i.severity = IssueSeverity.fatal := by
  unfold OperationOutcomeError.ContainsError
  simp only [List.any_eq_true, Bool.or_eq_true, beq_iff_eq]
  constructor
  · rintro ⟨i, hi, h | h⟩
    · exact ⟨i, hi, Or.inr h⟩
    · exact ⟨i, hi, Or.inl h⟩
  · rintro ⟨i, hi, h | h⟩
    · exact ⟨i, hi, Or.inr h⟩
    · exact ⟨i, hi, Or.inl h⟩

/-- C2: the response classifier returns a non-nil error if and only if the
body is non-empty, decodes to a struct whose resourceType tag
case-insensitively equals "OperationOutcome", and forceError is set or
some issue has severity error or fatal; in every other case (empty body,
parse failure, missing or other resourceType, only information/warning
issues without forceError) it returns nil. -/
theorem checkForOperationOutcomeError_iff
    (unmarshalOOC : Data → Option OperationOutcomeError)
    (data : Data) (forceError : Bool) (status : Int) :
    (checkForOperationOutcomeError unmarshalOOC data forceError status).isSome ↔
      (data ≠ [] ∧ ∃ ooc, unmarshalOOC data = some ooc ∧
        (∃ rt, ooc.resourceType = some rt ∧ eqFold rt "OperationOutcome" = true) ∧
        (forceError = true ∨ ∃ i ∈ ooc.issue,
          i.severity = IssueSeverity.error ∨ i.severity = IssueSeverity.fatal)) := by
  rcases data with _ | ⟨b, bs⟩
  · simp [checkForOperationOutcomeError]
  · cases hooc : unmarshalOOC (b :: bs) with
    | none => simp [checkForOperationOutcomeError, hooc]
    | some ooc =>
      rw [show (b :: bs ≠ []) = True by simp, true_and]
      cases hio : ooc.IsOperationOutcome with
      | false =>
        simp only [checkForOperationOutcomeError, List.length_cons, Nat.succ_ne_zero,
          if_false, hooc, hio, ite_false, Option.isSome_none, false_iff, reduceCtorEq]
        rintro ⟨ooc2, hooc2, hrt, _⟩
        cases hooc2
        rw [← isOperationOutcome_iff] at hrt
        simp [hio] at hrt
      | true =>
        cases hfire : (forceError || ooc.ContainsError) with
        | false =>
          have hfe : forceError = false := by
            cases forceError <;> simp_all
          have hce : ooc.ContainsError = false := by
            cases h : ooc.ContainsError <;> simp_all
          simp only [checkForOperationOutcomeError, List.length_cons, Nat.succ_ne_zero,
            if_false, hooc, hio, hfire, ite_true, ite_false, Option.isSome_none,
            false_iff, reduceCtorEq]
          rintro ⟨ooc2, hooc2, _, hsev⟩
          cases hooc2
          rcases hsev with hsev | hsev
          · simp [hfe] at hsev
          · rw [← containsError_iff] at hsev
            simp [hce] at hsev
        | true =>
          simp only [checkForOperationOutcomeError, List.length_cons, Nat.succ_ne_zero,
            if_false, hooc, hio, hfire, ite_true, Option.isSome_some, true_iff,
            reduceCtorEq]
          refine ⟨ooc, rfl, (isOperationOutcome_iff ooc).mp hio, ?_⟩
          rcases Bool.or_eq_true _ _ |>.mp hfire with h | h
          · exact Or.inl h
          · exact Or.inr ((containsError_iff ooc).mp h)

/-- C7: when the serialized resource carries a non-empty resourceType tag,
DescribeResource returns a description whose Type is that tag and whose
Data is the serialized JSON (the input verbatim for a byte slice); when
the tag is absent or empty it returns an error naming the runtime type.
Returning `Except` it can never produce both a description and an error. -/
theorem DescribeResource_spec
    (unmarshalDesc : Data → Except String String) (r : GoResource) (d : Data) (rt : String)
    (hser : r.serialized = some d) (hparse : unmarshalDesc d = .ok rt) :
    (rt ≠ "" →
      DescribeResource unmarshalDesc r = .ok { type := rt, data := d }) ∧
    (rt = "" →
      DescribeResource unmarshalDesc r = .error (.noTypeField r.runtimeTypeName)) := by
  cases r with
  | bytes d0 =>
    obtain rfl : d0 = d := by simpa [GoResource.serialized] using hser
    constructor <;> intro h <;>
      simp [DescribeResource, describeData, GoResource.runtimeTypeName, hparse, h]
  | value tn m =>
    cases m with
    | error e => simp [GoResource.serialized] at hser
    | ok d0 =>
      obtain rfl : d0 = d := by simpa [GoResource.serialized] using hser
      constructor <;> intro h <;>
        simp [DescribeResource, describeData, GoResource.runtimeTypeName, hparse, h]

theorem DescribeResource_spec_witness :
    DescribeResource (fun _ => .ok "Patient") (.bytes [123]) =
      .ok { type := "Patient", data := [123] } :=
  (DescribeResource_spec (fun _ => .ok "Patient") (.bytes [123]) [123] "Patient"
    rfl rfl).1 (by decide)

/-- C8: the claim says the body stream is closed on every exit path of an
exchange in which the transport returned a response; at this concrete
input a post-request option fails and the executor returns without
closing the body, because the deferred close is registered only after the
post-request options have run.  This matches the spec's stated intent and
contradicts the code, which leaks the response body on that path. -/
theorem doRequest_body_left_open_on_postOption_error :
    (doRequest (fun _ => none) (fun _ => none) false ⟨false, 10⟩
        (fun _ => .ok ⟨200, .ok []⟩) ⟨"GET", "http://fhir.example.com", []⟩
        [.post fun _ => some "header capture failed"]).bodyClosed = false ∧
    (doRequest (fun _ => none) (fun _ => none) false ⟨false, 10⟩
        (fun _ => .ok ⟨200, .ok []⟩) ⟨"GET", "http://fhir.example.com", []⟩
        [.post fun _ => some "header capture failed"]).result =
      .error (.postOptionFailed "header capture failed") :=
  ⟨rfl, rfl⟩

/-- C5 counterexample: the claim says the default Accept header is added
after all pre-request options have run, so that no option can suppress
it; at this concrete input a header-clearing pre-request option runs and
the request handed to the transport carries no Accept header, because the
source adds Accept before the options run. -/
theorem accept_header_suppressed_counterexample :
    (doRequest (fun _ => none) (fun _ => none) false ⟨false, 10⟩
        (fun _ => .ok ⟨200, .ok []⟩) ⟨"GET", "http://fhir.example.com", []⟩
        [.pre fun r => { r with headers := [] }]).sentRequest.hasHeader "Accept" = false :=
  rfl

theorem doRequest_sentRequest
    (unmarshalOOC : Data → Option OperationOutcomeError)
    (unmarshalTarget : Data → Option String) (targetIsByteSlice : Bool)
    (cfg : Config) (transport : Request → Except String Response)
    (req : Request) (opts : List ExchangeOption) :
    (doRequest unmarshalOOC unmarshalTarget targetIsByteSlice cfg transport
      req opts).sentRequest = prepareRequest req opts := by
  rcases htr : transport (prepareRequest req opts) with e | resp
  · simp [doRequest, htr]
  · rcases hpo : runPostOptions opts resp with _ | e
    · rcases hb : resp.body with e | bodyBytes
      · simp [doRequest, htr, hpo, hb]
      · simp only [doRequest, htr, hpo, hb]
        repeat' split <;> try rfl
    · simp [doRequest, htr, hpo]

theorem applyPreOptions_preserves_accept
    (opts : List ExchangeOption)
    (hpres : ∀ f, ExchangeOption.pre f ∈ opts → ∀ r, r.hasHeader "Accept" = true →
      (f r).hasHeader "Accept" = true) :
    ∀ r, r.hasHeader "Accept" = true → (applyPreOptions opts r).hasHeader "Accept" = true := by
  induction opts with
  | nil => intro r h; exact h
  | cons o rest ih =>
    intro r h
    cases o with
    | pre f =>
      simp only [applyPreOptions, List.foldl_cons]
      exact ih (fun g hg => hpres g (List.mem_cons_of_mem _ hg)) _
        (hpres f (List.mem_cons_self _ _) r h)
    | post f =>
      simp only [applyPreOptions, List.foldl_cons]
      exact ih (fun g hg => hpres g (List.mem_cons_of_mem _ hg)) r h
    | postParse e =>
      simp only [applyPreOptions, List.foldl_cons]
      exact ih (fun g hg => hpres g (List.mem_cons_of_mem _ hg)) r h

/-- C5 amended: the default Accept header is added to the outgoing
request before the pre-request options run, so a pre-request option can
remove it; whenever every pre-request option preserves an existing Accept
header, the request handed to the transport carries it. -/
theorem accept_header_before_preOptions
    (unmarshalOOC : Data → Option OperationOutcomeError)
    (unmarshalTarget : Data → Option String) (targetIsByteSlice : Bool)
    (cfg : Config) (transport : Request → Except String Response)
    (req : Request) (opts : List ExchangeOption)
    (hpres : ∀ f, ExchangeOption.pre f ∈ opts → ∀ r, r.hasHeader "Accept" = true →
      (f r).hasHeader "Accept" = true) :
    (doRequest unmarshalOOC unmarshalTarget targetIsByteSlice cfg transport
      req opts).sentRequest.hasHeader "Accept" = true := by
  rw [doRequest_sentRequest]
  unfold prepareRequest
  refine applyPreOptions_preserves_accept opts hpres _ ?_
  simp [Request.addHeader, Request.hasHeader]

theorem accept_header_before_preOptions_witness :
    (doRequest (fun _ => none) (fun _ => none) false ⟨false, 10⟩
        (fun _ => .ok ⟨200, .ok []⟩) ⟨"GET", "http://fhir.example.com", []⟩
        []).sentRequest.hasHeader "Accept" = true :=
  accept_header_before_preOptions _ _ _ _ _ _ _ (fun f hf => absurd hf (by simp))

/-- C3: for every positive configured MaxResponseSize L and every 2xx
response whose post-request options pass and whose body stream reads
cleanly, the executor reads at most L+1 bytes from the stream, a body of
exactly L bytes never produces the size-exceeded error, and a body of
L+1 or more bytes fails with the size-exceeded error naming L, the
method, the URL and the status. -/
theorem doRequest_maxResponseSize_boundary
    (unmarshalOOC : Data → Option OperationOutcomeError)
    (unmarshalTarget : Data → Option String) (targetIsByteSlice : Bool)
    (handler : Bool) (L : Nat) (transport : Request → Except String Response)
    (req : Request) (opts : List ExchangeOption) (resp : Response) (bodyBytes : Data)
    (hL : 0 < L)
    (htr : transport (prepareRequest req opts) = .ok resp)
    (hpo : runPostOptions opts resp = none)
    (hb : resp.body = .ok bodyBytes)
    (hst : 200 ≤ resp.statusCode ∧ resp.statusCode < 300) :
    (doRequest unmarshalOOC unmarshalTarget targetIsByteSlice ⟨handler, L⟩ transport
        req opts).bytesRead ≤ L + 1 ∧
    (bodyBytes.length = L →
      ∀ e, (doRequest unmarshalOOC unmarshalTarget targetIsByteSlice ⟨handler, L⟩ transport
        req opts).result = .error e → e.isTooLarge = false) ∧
    (L + 1 ≤ bodyBytes.length →
      (doRequest unmarshalOOC unmarshalTarget targetIsByteSlice ⟨handler, L⟩ transport
        req opts).result = .error (.responseTooLarge L (prepareRequest req opts).method
          (prepareRequest req opts).url resp.statusCode)) := by
  have hnot : ¬(resp.statusCode < 200 ∨ 300 ≤ resp.statusCode) := by omega
  simp only [doRequest, htr, hpo, hb]
  rw [if_neg hnot]
  refine ⟨?_, ?_, ?_⟩
  · have hbound : (List.take (L + 1) bodyBytes).length ≤ L + 1 := by
      rw [List.length_take]
      omega
    repeat' split
    all_goals exact hbound
  · intro hlen e he
    have hx : ¬ ((⟨handler, L⟩ : Config).maxResponseSize <
        (bodyBytes.take ((⟨handler, L⟩ : Config).maxResponseSize + 1)).length) := by
      simp [List.length_take, hlen]
    rw [if_neg hx] at he
    repeat' split at he
    all_goals
      first
        | (injection he with h; subst h; rfl)
        | (injection he)
  · intro hlen
    have hx : ((⟨handler, L⟩ : Config).maxResponseSize <
        (bodyBytes.take ((⟨handler, L⟩ : Config).maxResponseSize + 1)).length) := by
      simp [List.length_take]
      omega
    rw [if_pos hx]

theorem doRequest_maxResponseSize_boundary_witness :
    (0 : Nat) < 1 ∧
    (doRequest (fun _ => none) (fun _ => none) false ⟨false, 1⟩
        (fun _ => .ok ⟨200, .ok [7, 7]⟩) ⟨"GET", "http://fhir.example.com", []⟩ []).result =
      .error (.responseTooLarge 1 "GET" "http://fhir.example.com" 200) :=
  ⟨by decide,
    (doRequest_maxResponseSize_boundary (fun _ => none) (fun _ => none) false false 1
      (fun _ => .ok ⟨200, .ok [7, 7]⟩) ⟨"GET", "http://fhir.example.com", []⟩ []
      ⟨200, .ok [7, 7]⟩ [7, 7] (by decide) rfl rfl rfl ⟨by decide, by decide⟩).2.2
      (by decide)⟩

/-- C4: for every response whose status lies outside the 2xx range, the
call never succeeds; and when the post-request options pass and the body
reads cleanly, the non-2xx handler is invoked exactly when one is
configured, the classifier runs with forceError set, a recognized outcome
supersedes the generic error, and otherwise the generic request-failed
error carrying method, URL and status is returned. -/
theorem doRequest_non2xx
    (unmarshalOOC : Data → Option OperationOutcomeError)
    (unmarshalTarget : Data → Option String) (targetIsByteSlice : Bool)
    (cfg : Config) (transport : Request → Except String Response)
    (req : Request) (opts : List ExchangeOption) (resp : Response)
    (htr : transport (prepareRequest req opts) = .ok resp)
    (hst : resp.statusCode < 200 ∨ 300 ≤ resp.statusCode) :
    (∀ d, (doRequest unmarshalOOC unmarshalTarget targetIsByteSlice cfg transport
      req opts).result ≠ .ok d) ∧
    (runPostOptions opts resp = none → ∀ bodyBytes, resp.body = .ok bodyBytes →
      (doRequest unmarshalOOC unmarshalTarget targetIsByteSlice cfg transport
        req opts).handlerCalled = cfg.non2xxStatusHandler ∧
      (∀ ooc, checkForOperationOutcomeError unmarshalOOC
          (bodyBytes.take (cfg.maxResponseSize + 1)) true resp.statusCode = some ooc →
        (doRequest unmarshalOOC unmarshalTarget targetIsByteSlice cfg transport
          req opts).result = .error (.operationOutcome ooc)) ∧
      (checkForOperationOutcomeError unmarshalOOC
          (bodyBytes.take (cfg.maxResponseSize + 1)) true resp.statusCode = none →
        (doRequest unmarshalOOC unmarshalTarget targetIsByteSlice cfg transport
          req opts).result = .error (.requestFailed (prepareRequest req opts).method
            (prepareRequest req opts).url resp.statusCode))) := by
  constructor
  · intro d hd
    rcases hpo : runPostOptions opts resp with _ | e
    · rcases hb : resp.body with e | bodyBytes
      · simp [doRequest, htr, hpo, hb] at hd
      · simp only [doRequest, htr, hpo, hb] at hd
        rw [if_pos hst] at hd
        split at hd <;> simp at hd
    · simp [doRequest, htr, hpo] at hd
  · intro hpo bodyBytes hb
    refine ⟨?_, ?_, ?_⟩
    · simp only [doRequest, htr, hpo, hb]
      rw [if_pos hst]
      split <;> rfl
    · intro ooc hc
      simp only [doRequest, htr, hpo, hb]
      rw [if_pos hst, hc]
    · intro hc
      simp only [doRequest, htr, hpo, hb]
      rw [if_pos hst, hc]

theorem doRequest_non2xx_witness :
    (doRequest (fun _ => none) (fun _ => none) false ⟨true, 10⟩
        (fun _ => .ok ⟨404, .ok []⟩) ⟨"GET", "http://fhir.example.com", []⟩
        []).handlerCalled = true ∧
    (doRequest (fun _ => none) (fun _ => none) false ⟨true, 10⟩
        (fun _ => .ok ⟨404, .ok []⟩) ⟨"GET", "http://fhir.example.com", []⟩
        []).result = .error (.requestFailed "GET" "http://fhir.example.com" 404) := by
  have h := doRequest_non2xx (fun _ => none) (fun _ => none) false ⟨true, 10⟩
    (fun _ => .ok ⟨404, .ok []⟩) ⟨"GET", "http://fhir.example.com", []⟩ []
    ⟨404, .ok []⟩ rfl (Or.inr (by decide))
  exact ⟨(h.2 rfl [] rfl).1, (h.2 rfl [] rfl).2.2 rfl⟩

/-- C9 counterexample: the claim says applying QueryParam options in any
order yields the same encoded query string; adding the pairs a=1 and a=2
in the two orders yields different encodings, because the encode sorts by
key only and keeps the values of one key in insertion order. -/
theorem queryParam_order_counterexample :
    encodeQueryString (QueryParam "a" "2" (QueryParam "a" "1" [])) ≠
      encodeQueryString (QueryParam "a" "1" (QueryParam "a" "2" [])) := by
  have e1 : QueryParam "a" "1" ([] : QueryPairs) = [("a", "1")] := by
    simp [QueryParam, encodeQuery, List.insertionSort]
  have e2 : QueryParam "a" "2" ([] : QueryPairs) = [("a", "2")] := by
    simp [QueryParam, encodeQuery, List.insertionSort]
  have e3 : QueryParam "a" "2" [("a", "1")] = [("a", "1"), ("a", "2")] := by
    simp [QueryParam, encodeQuery, List.insertionSort, List.orderedInsert, queryKeyLE]
  have e4 : QueryParam "a" "1" [("a", "2")] = [("a", "2"), ("a", "1")] := by
    simp [QueryParam, encodeQuery, List.insertionSort, List.orderedInsert, queryKeyLE]
  have e5 : encodeQuery [("a", "1"), ("a", "2")] = [("a", "1"), ("a", "2")] := by
    simp [encodeQuery, List.insertionSort, List.orderedInsert, queryKeyLE]
  have e6 : encodeQuery [("a", "2"), ("a", "1")] = [("a", "2"), ("a", "1")] := by
    simp [encodeQuery, List.insertionSort, List.orderedInsert, queryKeyLE]
  rw [e1, e2, e3, e4]
  unfold encodeQueryString
  rw [e5, e6]
  decide

/-- C9 amended: each QueryParam application appends the new key/value
pair without removing or replacing any existing parameter (the result is
a permutation of the previous pairs plus the new one) and re-encodes
deterministically with the pairs stably sorted by key; two application
orders are not guaranteed to yield the same encoded string when the same
key occurs with different values. -/
theorem queryParam_appends_and_sorts (key value : String) (q : QueryPairs) :
    (QueryParam key value q).Perm (q ++ [(key, value)]) ∧
      List.Sorted queryKeyLE (QueryParam key value q) :=
  ⟨List.perm_insertionSort queryKeyLE _, List.sorted_insertionSort queryKeyLE _⟩

theorem scanNextLink_append (p : String → Except String URL) (xs ys : List BundleLink)
    (acc : Option URL) :
    scanNextLink p (xs ++ ys) acc =
      match scanNextLink p xs acc with
      | .error e => .error e
      | .ok acc2 => scanNextLink p ys acc2 := by
  induction xs generalizing acc with
  | nil => simp [scanNextLink]
  | cons l rest ih =>
    simp only [List.cons_append, scanNextLink]
    by_cases h : l.relation = "next"
    · rw [if_pos h, if_pos h]
      cases p l.url with
      | error e => rfl
      | ok u => exact ih (some u)
    · rw [if_neg h, if_neg h]
      exact ih acc

theorem scanNextLink_no_next (p : String → Except String URL) :
    ∀ (xs : List BundleLink) (acc : Option URL), (∀ l ∈ xs, l.relation ≠ "next") →
      scanNextLink p xs acc = .ok acc
  | [], _, _ => rfl
  | l :: rest, acc, h => by
    have hl : l.relation ≠ "next" := h l (List.mem_cons_self _ _)
    simp only [scanNextLink, if_neg hl]
    exact scanNextLink_no_next p rest acc (fun x hx => h x (List.mem_cons_of_mem _ hx))

theorem scanNextLink_all_parse (p : String → Except String URL) :
    ∀ (xs : List BundleLink) (acc : Option URL),
      (∀ l ∈ xs, l.relation = "next" → ∃ u, p l.url = .ok u) →
      ∃ acc2, scanNextLink p xs acc = .ok acc2
  | [], acc, _ => ⟨acc, rfl⟩
  | l :: rest, acc, h => by
    by_cases hl : l.relation = "next"
    · obtain ⟨u, hu⟩ := h l (List.mem_cons_self _ _) hl
      simp only [scanNextLink, if_pos hl, hu]
      exact scanNextLink_all_parse p rest (some u) (fun x hx => h x (List.mem_cons_of_mem _ hx))
    · simp only [scanNextLink, if_neg hl]
      exact scanNextLink_all_parse p rest acc (fun x hx => h x (List.mem_cons_of_mem _ hx))

theorem scanNextLink_error_of_mem (p : String → Except String URL) (bad : BundleLink)
    (e : String) (hrel : bad.relation = "next") (hbad : p bad.url = .error e) :
    ∀ (xs : List BundleLink) (acc : Option URL), bad ∈ xs →
      ∃ e2, scanNextLink p xs acc = .error e2
  | [], _, hmem => absurd hmem (List.not_mem_nil bad)
  | l :: rest, acc, hmem => by
    by_cases hl : l.relation = "next"
    · cases hu : p l.url with
      | error e2 => exact ⟨e2, by simp only [scanNextLink, if_pos hl, hu]⟩
      | ok u =>
        have hmem2 : bad ∈ rest := by
          rcases List.mem_cons.mp hmem with rfl | hm
          · rw [hbad] at hu
            cases hu
          · exact hm
        simp only [scanNextLink, if_pos hl, hu]
        exact scanNextLink_error_of_mem p bad e hrel hbad rest (some u) hmem2
    · have hmem2 : bad ∈ rest := by
        rcases List.mem_cons.mp hmem with rfl | hm
        · exact absurd hrel hl
        · exact hm
      simp only [scanNextLink, if_neg hl]
      exact scanNextLink_error_of_mem p bad e hrel hbad rest acc hmem2

theorem paginateLoop_ceiling (parseURL : String → Except String URL)
    (search : URL → Except String Bundle) (consume : Bundle → Bool × Option String)
    (N : Nat) (hconsume : ∀ b, consume b = (true, none))
    (hsearch : ∀ u, ∃ b, search u = .ok b ∧ nextOK parseURL b) :
    ∀ (r : Nat) (b : Bundle), 1 ≤ r → nextOK parseURL b →
      (paginateLoop parseURL search consume N r b).consumeCalls = r - 1 ∧
      (paginateLoop parseURL search consume N r b).result =
        .error (.maxIterationsReached N) := by
  intro r
  induction r with
  | zero => exact fun b hr _ => absurd hr (by omega)
  | succ r ih =>
    intro b hr hb
    by_cases hr0 : r = 0
    · subst hr0
      simp [paginateLoop]
    · obtain ⟨u, hu⟩ := hb
      obtain ⟨b2, hs, hb2⟩ := hsearch u
      have ih2 := ih b2 (by omega) hb2
      simp only [paginateLoop, if_neg hr0, hconsume b, hu, hs]
      exact ⟨by rw [ih2.1]; omega, ih2.2⟩

/-- C1: with maxIterations N of at least 2, a consume callback that
always continues, and every page (initial and fetched) carrying a
parseable next link, Paginate invokes the consume callback exactly N-1
times and returns the max-iterations error, whose message contains N; in
particular N = 3 permits exactly 2 consume calls. -/
theorem paginate_ceiling
    (parseURL : String → Except String URL) (search : URL → Except String Bundle)
    (consume : Bundle → Bool × Option String) (b0 : Bundle) (N : Nat)
    (hN : 2 ≤ N)
    (hconsume : ∀ b, consume b = (true, none))
    (h0 : nextOK parseURL b0)
    (hsearch : ∀ u, ∃ b, search u = .ok b ∧ nextOK parseURL b) :
    (Paginate parseURL search consume b0 [WithMaxIterations N]).consumeCalls = N - 1 ∧
    (Paginate parseURL search consume b0 [WithMaxIterations N]).result =
      .error (.maxIterationsReached N) ∧
    ∃ s1 s2, (PaginateError.maxIterationsReached N).message = s1 ++ toString N ++ s2 := by
  have hloop := paginateLoop_ceiling parseURL search consume N hconsume hsearch N b0
    (by omega) h0
  have hP : Paginate parseURL search consume b0 [WithMaxIterations N] =
      paginateLoop parseURL search consume N N b0 := by
    simp [Paginate, WithMaxIterations]
  rw [hP]
  exact ⟨hloop.1, hloop.2,
    "paginate: max. search iterations reached (", "), possible bug", rfl⟩

theorem paginate_ceiling_witness :
    (Paginate (fun s => .ok s) (fun u => .ok ⟨[⟨"next", u⟩]⟩) (fun _ => (true, none))
      ⟨[⟨"next", "page0"⟩]⟩ [WithMaxIterations 3]).consumeCalls = 2 ∧
    (Paginate (fun s => .ok s) (fun u => .ok ⟨[⟨"next", u⟩]⟩) (fun _ => (true, none))
      ⟨[⟨"next", "page0"⟩]⟩ [WithMaxIterations 3]).result =
      .error (.maxIterationsReached 3) := by
  have h := paginate_ceiling (fun s => .ok s) (fun u => .ok ⟨[⟨"next", u⟩]⟩)
    (fun _ => (true, none)) ⟨[⟨"next", "page0"⟩]⟩ 3 (by omega) (fun _ => rfl)
    ⟨"page0", rfl⟩ (fun u => ⟨⟨[⟨"next", u⟩]⟩, rfl, u, rfl⟩)
  exact ⟨h.1, h.2.1⟩

/-- C6: when the current page's link collection holds several
next-relation links, all parseable, the scan keeps the last one in
collection order and Paginate fetches that link's URL next. -/
theorem paginate_last_next_link_wins
    (parseURL : String → Except String URL) (search : URL → Except String Bundle)
    (consume : Bundle → Bool × Option String) (N : Nat) (b : Bundle)
    (pre post : List BundleLink) (l : BundleLink) (u : URL)
    (hlinks : b.link = pre ++ l :: post)
    (hrel : l.relation = "next")
    (hu : parseURL l.url = .ok u)
    (hpost : ∀ x ∈ post, x.relation ≠ "next")
    (hpre : ∀ x ∈ pre, x.relation = "next" → ∃ v, parseURL x.url = .ok v)
    (hmulti : ∃ x ∈ pre, x.relation = "next")
    (hconsume : consume b = (true, none))
    (hN : 2 ≤ N) :
    (Paginate parseURL search consume b [WithMaxIterations N]).fetched.head? = some u := by
  obtain ⟨acc2, hacc⟩ := scanNextLink_all_parse parseURL pre none hpre
  have hscan : scanNextLink parseURL b.link none = .ok (some u) := by
    rw [hlinks, scanNextLink_append, hacc]
    simp only [scanNextLink, if_pos hrel, hu]
    exact scanNextLink_no_next parseURL post (some u) hpost
  obtain ⟨n, rfl⟩ : ∃ n, N = n + 2 := ⟨N - 2, by omega⟩
  have hP : Paginate parseURL search consume b [WithMaxIterations (n + 2)] =
      paginateLoop parseURL search consume (n + 2) (n + 2) b := by
    simp [Paginate, WithMaxIterations]
  rw [hP]
  simp only [paginateLoop, hconsume, hscan]
  rw [if_neg (by omega : ¬ (n + 1 = 0))]
  rcases hs : search u with e | b2 <;> simp

theorem paginate_last_next_link_wins_witness :
    (Paginate (fun s => .ok s) (fun _ => .error "halt") (fun _ => (true, none))
      ⟨[⟨"next", "u1"⟩, ⟨"next", "u2"⟩]⟩ [WithMaxIterations 2]).fetched.head? =
      some "u2" :=
  paginate_last_next_link_wins (fun s => .ok s) (fun _ => .error "halt")
    (fun _ => (true, none)) 2 ⟨[⟨"next", "u1"⟩, ⟨"next", "u2"⟩]⟩
    [⟨"next", "u1"⟩] [] ⟨"next", "u2"⟩ "u2" rfl rfl rfl
    (fun x hx => absurd hx (List.not_mem_nil x))
    (fun x _ _ => ⟨x.url, rfl⟩)
    ⟨⟨"next", "u1"⟩, List.mem_singleton_self _, rfl⟩
    rfl (by omega)

/-- C10: when a next-relation link with an unparseable URL occurs before
a later next-relation link with a valid URL, Paginate halts with the
invalid-next-link error and fetches nothing: the scan parses every next
link, not only the winning last one. -/
theorem paginate_invalid_next_link_scanned
    (parseURL : String → Except String URL) (search : URL → Except String Bundle)
    (consume : Bundle → Bool × Option String) (N : Nat) (b : Bundle)
    (pre mid post : List BundleLink) (bad good : BundleLink) (e : String) (u : URL)
    (hlinks : b.link = pre ++ bad :: mid ++ good :: post)
    (hbadrel : bad.relation = "next") (hbad : parseURL bad.url = .error e)
    (hgoodrel : good.relation = "next") (hgood : parseURL good.url = .ok u)
    (hconsume : consume b = (true, none)) (hN : 2 ≤ N) :
    (Paginate parseURL search consume b [WithMaxIterations N]).fetched = [] ∧
    ∃ e2, (Paginate parseURL search consume b [WithMaxIterations N]).result =
      .error (.invalidNextLink e2) := by
  have hmem : bad ∈ b.link := by
    rw [hlinks]
    exact List.mem_append.mpr
      (Or.inl (List.mem_append.mpr (Or.inr (List.mem_cons_self _ _))))
  obtain ⟨e2, hscan⟩ := scanNextLink_error_of_mem parseURL bad e hbadrel hbad b.link none hmem
  obtain ⟨n, rfl⟩ : ∃ n, N = n + 2 := ⟨N - 2, by omega⟩
  have hP : Paginate parseURL search consume b [WithMaxIterations (n + 2)] =
      paginateLoop parseURL search consume (n + 2) (n + 2) b := by
    simp [Paginate, WithMaxIterations]
  rw [hP]
  constructor
  · simp [paginateLoop, hconsume, hscan]
  · exact ⟨e2, by simp [paginateLoop, hconsume, hscan]⟩

theorem paginate_invalid_next_link_scanned_witness :
    (Paginate (fun s => if s = "bad" then .error "boom" else .ok s) (fun _ => .ok ⟨[]⟩)
      (fun _ => (true, none)) ⟨[⟨"next", "bad"⟩, ⟨"next", "good"⟩]⟩
      [WithMaxIterations 2]).fetched = [] ∧
    ∃ e2, (Paginate (fun s => if s = "bad" then .error "boom" else .ok s) (fun _ => .ok ⟨[]⟩)
      (fun _ => (true, none)) ⟨[⟨"next", "bad"⟩, ⟨"next", "good"⟩]⟩
      [WithMaxIterations 2]).result = .error (.invalidNextLink e2) :=
  paginate_invalid_next_link_scanned (fun s => if s = "bad" then .error "boom" else .ok s)
    (fun _ => .ok ⟨[]⟩) (fun _ => (true, none)) 2 ⟨[⟨"next", "bad"⟩, ⟨"next", "good"⟩]⟩
    [] [] [] ⟨"next", "bad"⟩ ⟨"next", "good"⟩ "boom" "good"
    rfl rfl rfl rfl rfl rfl (by omega)

end FhirClient
